import Mathlib

/-!
Shallow embedding of the URL-shortener core (Mongoose `Url` model,
`urlController.createShortUrl`, `urlController.getUrlAnalytics`,
`redirectController.redirectToOriginal`) and proofs of the frozen claims
about short-code generation, atomic click recording, and analytics.

Timestamps are modelled as natural numbers (milliseconds since the epoch);
`new Date(y, m, d)` truncation to day granularity is modelled as rounding
down to a multiple of the number of milliseconds per day.
-/

namespace ShortUrl

/-- One entry of the `recentClicks` array (the `clickSchema`):
timestamp, origin IP, user agent, referer; the last three are optional. -/
structure ClickEvent where
  timestamp : Nat
  ip : Option String
  userAgent : Option String
  referer : Option String
deriving Repr, DecidableEq

/-- One entry of the `dailyStats` array: a day (date truncated to day
granularity) and the click count recorded for that day. -/
structure DailyStat where
  date : Nat
  clicks : Nat
deriving Repr, DecidableEq

/-- The click metadata extracted from a request (`clickData` in
`redirectController`): ip, userAgent, referer. -/
structure ClickMeta where
  ip : Option String
  userAgent : Option String
  referer : Option String
deriving Repr, DecidableEq

/-- A `Url` document as defined by `urlSchema`. `userId` is optional
(anonymous creation), `lastClicked`, `expiryDate` and `qrCode` default to
null, `updatedAt` is the store-managed timestamp. -/
structure UrlRecord where
  originalUrl : String
  shortCode : String
  userId : Option Nat
  title : String
  description : String
  clicks : Nat
  lastClicked : Option Nat
  isActive : Bool
  expiryDate : Option Nat
  qrCode : Option String
  tags : List String
  recentClicks : List ClickEvent
  dailyStats : List DailyStat
  updatedAt : Nat
deriving Repr, DecidableEq

/-- Milliseconds in one day. -/
def msPerDay : Nat := 86400000

/-- `new Date(now.getFullYear(), now.getMonth(), now.getDate())`:
the current time truncated to day granularity. -/
def dayTrunc (t : Nat) : Nat := t / msPerDay * msPerDay

/-- MongoDB `$push` with `$slice: -n`: after appending, keep only the
last `n` elements. -/
def lastN (n : Nat) (l : List α) : List α := l.drop (l.length - n)

/-- JavaScript `Array.prototype.findIndex` (as an `Option` instead of the
`-1` sentinel; the source only tests `>= 0` and then uses the index). -/
def findIndex (p : α → Bool) : List α → Option Nat
  | [] => none
  | a :: l => if p a then some 0 else (findIndex p l).map (· + 1)

/-- MongoDB `$inc` on `dailyStats.<i>.clicks`: apply `f` to the element at
index `i`, leaving every other element unchanged. -/
def modifyIdx (f : α → α) : Nat → List α → List α
  | _, [] => []
  | 0, a :: l => f a :: l
  | n + 1, a :: l => a :: modifyIdx f n l

/-- The click-event document pushed onto `recentClicks` by
`incrementClicks`: current time plus the request metadata. -/
def mkClickEvent (now : Nat) (m : ClickMeta) : ClickEvent :=
  { timestamp := now, ip := m.ip, userAgent := m.userAgent, referer := m.referer }

/-- The `dailyStats` part of the atomic update in `incrementClicks`:
if `findIndex` locates an entry whose date equals `today`, `$inc` that
entry's `clicks` by 1; otherwise `$push` a `{date: today, clicks: 1}`
entry with `$slice: -365`. -/
def dailyUpdate (today : Nat) (stats : List DailyStat) : List DailyStat :=
  match findIndex (fun s => s.date == today) stats with
  | some i => modifyIdx (fun s => { s with clicks := s.clicks + 1 }) i stats
  | none => lastN 365 (stats ++ [{ date := today, clicks := 1 }])

/-- `urlSchema.methods.incrementClicks`: the single atomic
`findByIdAndUpdate` it issues — `$inc clicks by 1`, `$set lastClicked` to
now, `$push` the click event onto `recentClicks` with `$slice: -1000`, and
the `dailyStats` update for today; `timestamps: true` refreshes
`updatedAt`. -/
def incrementClicks (r : UrlRecord) (now : Nat) (m : ClickMeta) : UrlRecord :=
  { r with
    clicks := r.clicks + 1
    lastClicked := some now
    recentClicks := lastN 1000 (r.recentClicks ++ [mkClickEvent now m])
    dailyStats := dailyUpdate (dayTrunc now) r.dailyStats
    updatedAt := now }

/-- Fold a sequence of clicks (each a time plus its metadata) over a
record, one `incrementClicks` per click. -/
def applyClicks (r : UrlRecord) (cs : List (Nat × ClickMeta)) : UrlRecord :=
  cs.foldl (fun acc c => incrementClicks acc c.1 c.2) r

/-- Sum of the per-day click counts stored in `dailyStats`. -/
def sumDaily (stats : List DailyStat) : Nat := (stats.map DailyStat.clicks).sum

/-- The dates stored in `dailyStats`, in order. -/
def statDates (stats : List DailyStat) : List Nat := stats.map DailyStat.date

/-- The record `urlController.createShortUrl` hands to `Url.create`
(`urlData`), completed with the schema defaults: `clicks = 0`,
`lastClicked = null`, `isActive = true`, `qrCode = null`,
`recentClicks = []`, `dailyStats = []`. -/
def freshRecord (originalUrl shortCode : String) (userId : Option Nat)
    (title description : String) (expiryDate : Option Nat) (tags : List String) :
    UrlRecord :=
  { originalUrl := originalUrl, shortCode := shortCode, userId := userId,
    title := title, description := description,
    clicks := 0, lastClicked := none, isActive := true,
    expiryDate := expiryDate, qrCode := none, tags := tags,
    recentClicks := [], dailyStats := [], updatedAt := 0 }

/-- Spec-side reading of the daily rollup ("if `dailyStats` already has an
entry for today, increment that entry's count by 1 in place"), stated as a
direct recursion to be compared with the source's `findIndex` + positional
`$inc` implementation: increments the first entry whose date equals
`today`. -/
def bumpToday (today : Nat) : List DailyStat → List DailyStat
  | [] => []
  | s :: rest =>
      if s.date = today then { s with clicks := s.clicks + 1 } :: rest
      else s :: bumpToday today rest

/-! ### Store model: uniqueness constraints and `createShortUrl` -/

/-- The two duplicate-key (`error.code === 11000`) cases distinguished by
`createShortUrl`: the unique `shortCode` index, and the unique
`{userId, originalUrl, isActive}` compound index. -/
inductive DupError where
  | shortCode
  | ownerUrl
deriving Repr, DecidableEq

/-- `Url.create`: atomic insert enforcing the two unique indexes of
`urlSchema` — `shortCode` globally unique, and the compound
`{userId: 1, originalUrl: 1, isActive: 1}` unique index. -/
def insertRecord (store : List UrlRecord) (r : UrlRecord) :
    Except DupError (List UrlRecord) :=
  if store.any (fun s => s.shortCode == r.shortCode) then
    .error .shortCode
  else if store.any (fun s =>
      s.userId == r.userId && s.originalUrl == r.originalUrl &&
      s.isActive == r.isActive) then
    .error .ownerUrl
  else
    .ok (store ++ [r])

/-- The outcomes of `createShortUrl`'s insert-and-recover block: a 201
with a newly created record, a 200 with the pre-existing record
(owner+URL race), the 500 "Failed to generate unique short code. Please
try again." after the single collision retry fails, or the generic 500
(re-thrown error). -/
inductive CreateOutcome where
  | created (r : UrlRecord)
  | existingReturned (r : UrlRecord)
  | collisionRetryFailed
  | serverError
deriving Repr, DecidableEq

/-- The duplicate-key handling of `createShortUrl` around `Url.create`:
on success return the created record; on a `shortCode` duplicate, generate
one new code (`newCode`, the value `Url.generateShortCode()` would return)
and retry the insert exactly once, any failure of the retry becoming the
500 collision response; on an owner+URL duplicate, look up the existing
active record for `(userId, originalUrl)` and return it, re-throwing when
none is found. Also returns the resulting store and the number of insert
attempts performed. -/
def createRecord (store : List UrlRecord) (data : UrlRecord) (newCode : String) :
    CreateOutcome × List UrlRecord × Nat :=
  match insertRecord store data with
  | .ok store1 => (.created data, store1, 1)
  | .error .shortCode =>
      let retryData := { data with shortCode := newCode }
      match insertRecord store retryData with
      | .ok store1 => (.created retryData, store1, 2)
      | .error _ => (.collisionRetryFailed, store, 2)
  | .error .ownerUrl =>
      match store.find? (fun s =>
          s.userId == data.userId && s.originalUrl == data.originalUrl &&
          s.isActive) with
      | some existing => (.existingReturned existing, store, 1)
      | none => (.serverError, store, 1)

/-! ### `generateShortCode` -/

/-- The 64-character alphabet of `generateShortCode`:
`'abcdefghijklmnopqrstuvwxyzABCDEFGHIJKLMNOPQRSTUVWXYZ0123456789_-'`. -/
def characters : List Char :=
  "abcdefghijklmnopqrstuvwxyzABCDEFGHIJKLMNOPQRSTUVWXYZ0123456789_-".toList

/-- `characters.charAt(b % characters.length)` for one random byte `b`. -/
def charAtMod (b : Nat) : Char := characters.getD (b % characters.length) 'a'

/-- One random attempt: map each of the `length` random bytes through
`charAtMod` and concatenate. -/
def attemptCode (bytes : List Nat) : List Char := bytes.map charAtMod

/-- The attempt loop of `generateShortCode`: build the candidate for each
byte string in turn and return the first one for which the store lookup
(`taken`) finds no existing record. -/
def genLoop (taken : List Char → Bool) : List (List Nat) → Option (List Char)
  | [] => none
  | bytes :: rest =>
      let code := attemptCode bytes
      if taken code then genLoop taken rest else some code

/-- The fallback of `generateShortCode`:
`(Date.now().toString(36) + Math.random().toString(36).substring(2, 8)).substring(0, Math.max(length, 8))`,
with the base-36 digit strings of the timestamp and of the random draw
passed in as character lists. -/
def fallbackCode (tsDigits randDigits : List Char) (length : Nat) : List Char :=
  (tsDigits ++ randDigits).take (max length 8)

/-- `urlSchema.statics.generateShortCode`, with its environment made
explicit: `taken` is the store lookup (`findOne({shortCode})` finds an
existing record), `attempts` the sequence of `crypto.randomBytes(length)`
draws for the up-to-50 attempts, `tsDigits`/`randDigits` the base-36
digits of `Date.now()` and of the random suffix. Returns the generated
code or the final "Unable to generate unique short code" error. -/
def generateShortCode (taken : List Char → Bool) (attempts : List (List Nat))
    (tsDigits randDigits : List Char) (length : Nat) :
    Except String (List Char) :=
  match genLoop taken attempts with
  | some code => .ok code
  | none =>
      let fb := fallbackCode tsDigits randDigits length
      if taken fb then .error "Unable to generate unique short code after all attempts"
      else .ok fb

/-- The base-36 digits produced by JavaScript `Number.prototype.toString(36)`. -/
def isBase36 (c : Char) : Bool :=
  ("0123456789abcdefghijklmnopqrstuvwxyz".toList).contains c

/-! ### `getUrlAnalytics`: topReferrers -/

/-- JavaScript truthiness of the `referer` field, as used by
`filter(click => click.referer)`: present and non-empty. -/
def refererPresent (e : ClickEvent) : Bool :=
  match e.referer with
  | none => false
  | some s => !s.isEmpty

/-- `acc[domain] = (acc[domain] || 0) + 1` on the accumulator object,
modelled as an association list preserving first-insertion order. -/
def bumpCount : List (String × Nat) → String → List (String × Nat)
  | [], d => [(d, 1)]
  | (k, n) :: rest, d =>
      if k = d then (k, n + 1) :: rest else (k, n) :: bumpCount rest d

/-- The `topReferrers` reduce of `getUrlAnalytics`:
`recentClicks.filter(click => click.referer).reduce(...)`, where each step
evaluates `new URL(click.referer).hostname`. `parseHost` models the
`URL` constructor (`none` = the constructor throws a `TypeError`); a
throw aborts the whole computation with the error. -/
def topReferrers (parseHost : String → Option String) (clicks : List ClickEvent) :
    Except String (List (String × Nat)) :=
  (clicks.filter refererPresent).foldlM
    (fun acc e =>
      match e.referer with
      | none => .error "TypeError"
      | some s =>
          match parseHost s with
          | none => .error "TypeError: Invalid URL"
          | some d => .ok (bumpCount acc d))
    []

/-- Spec-side total version of the referrer aggregation ("entries without
a parseable referer are silently excluded"): skips unparseable referers
instead of failing. -/
def topReferrersTotal (parseHost : String → Option String)
    (clicks : List ClickEvent) : List (String × Nat) :=
  (clicks.filter refererPresent).foldl
    (fun acc e =>
      match e.referer.bind parseHost with
      | none => acc
      | some d => bumpCount acc d)
    []

/-- The possible responses of `getUrlAnalytics`, keyed by what they report
about `topReferrers`: 404 when the lookup finds no record, 200 carrying
the computed `topReferrers` object, 500 when the handler's `try` block
throws (in particular when `new URL(click.referer)` throws). -/
inductive AnalyticsResult where
  | notFound
  | ok (topReferrers : List (String × Nat))
  | serverError
deriving Repr, DecidableEq

/-- The control flow of `getUrlAnalytics` relevant to `topReferrers`:
404 when `Url.findOne({_id, userId})` returns nothing; otherwise compute
the referrer aggregation inside the handler's `try`, a throw being caught
by the outer `catch` as the 500 response. -/
def getUrlAnalytics (parseHost : String → Option String)
    (found : Option UrlRecord) : AnalyticsResult :=
  match found with
  | none => .notFound
  | some url =>
      match topReferrers parseHost url.recentClicks with
      | .ok t => .ok t
      | .error _ => .serverError

/-! ### `redirectToOriginal` -/

/-- The responses `redirectToOriginal` can produce after validation:
404 when no active record matches the short code, 410 when the record is
expired, the 302 redirect to the original URL, or the outer-catch 500. -/
inductive RedirectResponse where
  | notFound
  | gone
  | redirect302 (target : String)
  | serverError
deriving Repr, DecidableEq

/-- `redirectToOriginal` after request validation: look up
`findOne({shortCode, isActive: true})`; 404 if absent; 410 if
`expiryDate` is set and in the past; otherwise record the click inside a
`try` whose `catch` only logs (`recordClick` models the re-fetch plus
`incrementClicks` call and may fail), and in every case issue the 302
redirect to the `originalUrl` of the looked-up record. Returns the
response together with the resulting store. -/
def redirectToOriginal (store : List UrlRecord) (shortCode : String) (now : Nat)
    (recordClick : UrlRecord → Except String UrlRecord) :
    RedirectResponse × List UrlRecord :=
  match store.find? (fun r => r.shortCode == shortCode && r.isActive) with
  | none => (.notFound, store)
  | some url =>
      if (match url.expiryDate with | some d => decide (d < now) | none => false) then
        (.gone, store)
      else
        let store1 :=
          match recordClick url with
          | .ok updated => store.map (fun r => if r == url then updated else r)
          | .error _ => store
        (.redirect302 url.originalUrl, store1)

/-! ### Concrete inputs used by witnesses and counterexamples -/

/-- A freshly created record for `https://example.com` with code `abc123`. -/
def w1Rec : UrlRecord :=
  freshRecord "https://example.com" "abc123" (some 1) "" "" none []

/-- Click metadata with an IP and user agent but no referer. -/
def w1Meta : ClickMeta :=
  { ip := some "1.2.3.4", userAgent := some "test-agent", referer := none }

/-- A store lookup under which every 4-character candidate is taken
(all 50 random attempts for `length = 4` collide) but nothing else is. -/
def takenLen4 : List Char → Bool := fun c => c.length == 4

/-- 50 draws of `crypto.randomBytes(4)`, all equal, for the collision
scenario. -/
def attempts4 : List (List Nat) := List.replicate 50 (List.replicate 4 0)

/-- Base-36 digits of a current `Date.now()` value (8 digits, as for any
timestamp from 2004 through 2038). -/
def wTsDigits : List Char := "m0abc123".toList

/-- Base-36 digits of `Math.random().toString(36).substring(2, 8)`. -/
def wRandDigits : List Char := "qrstuv".toList

/-- A store lookup under which no candidate is taken. -/
def takenNone : List Char → Bool := fun _ => false

/-- A record already holding short code `abc123` for owner 2 and a
different URL: collides with `w1Rec`'s code but not its owner+URL pair. -/
def wCodeClash : UrlRecord :=
  freshRecord "https://other.example.org" "abc123" (some 2) "" "" none []

/-- A record holding owner 1's `https://example.com` under another code:
collides with `w1Rec`'s owner+URL pair but not its code. -/
def wOwnerClash : UrlRecord :=
  freshRecord "https://example.com" "zzzz99" (some 1) "" "" none []

/-- A URL-constructor model that rejects every string. -/
def noParse : String → Option String := fun _ => none

/-- A URL-constructor model that resolves every string to one hostname. -/
def allParse : String → Option String := fun _ => some "example.com"

/-- A record whose single recent click carries a non-empty referer that is
not a parseable URL. -/
def wBadRefRec : UrlRecord :=
  { w1Rec with recentClicks :=
      [{ timestamp := 0, ip := none, userAgent := none, referer := some "not a url" }] }

/-- A record whose single recent click carries a parseable referer. -/
def wGoodRefRec : UrlRecord :=
  { w1Rec with recentClicks :=
      [{ timestamp := 0, ip := none, userAgent := none,
         referer := some "https://example.com/page" }] }

/-- A click-recording callback that always fails (store unavailable). -/
def alwaysFailClick : UrlRecord → Except String UrlRecord :=
  fun _ => .error "store unavailable"

/-- 1500 identical clicks, all at time 0. -/
def w1500Clicks : List (Nat × ClickMeta) := List.replicate 1500 (0, w1Meta)

/-! ### Helper lemmas about `lastN`, `findIndex`, `modifyIdx` -/

theorem lastN_of_length_le {l : List α} {n : Nat} (h : l.length ≤ n) :
    lastN n l = l := by
  unfold lastN
  rw [Nat.sub_eq_zero_of_le h, List.drop_zero]

theorem lastN_length (n : Nat) (l : List α) :
    (lastN n l).length = l.length - (l.length - n) := by
  unfold lastN; rw [List.length_drop]

theorem lastN_length_le (n : Nat) (l : List α) : (lastN n l).length ≤ n := by
  rw [lastN_length]; omega

theorem lastN_lastN_append (n : Nat) (l l' : List α) :
    lastN n (lastN n l ++ l') = lastN n (l ++ l') := by
  unfold lastN
  rw [List.drop_append_eq_append_drop, List.drop_append_eq_append_drop,
    List.drop_drop]
  simp only [List.length_append, List.length_drop]
  congr 1
  · congr 1
    omega
  · congr 1
    omega

theorem getLast?_lastN_concat (n : Nat) (hn : 1 ≤ n) (l : List α) (a : α) :
    (lastN n (l ++ [a])).getLast? = some a := by
  unfold lastN
  rw [List.drop_append_eq_append_drop]
  have h1 : (l ++ [a]).length - n - l.length = 0 := by
    simp [List.length_append]; omega
  rw [h1, List.drop_zero, List.getLast?_append_of_ne_nil _ (by simp)]
  simp

theorem modifyIdx_length (f : α → α) (i : Nat) (l : List α) :
    (modifyIdx f i l).length = l.length := by
  induction l generalizing i with
  | nil => cases i <;> rfl
  | cons a l ih =>
    cases i with
    | zero => rfl
    | succ n => simp [modifyIdx, ih]

theorem findIndex_eq_none_of_any_eq_false {p : α → Bool} :
    ∀ {l : List α}, l.any p = false → findIndex p l = none
  | [], _ => rfl
  | a :: l, h => by
    simp only [List.any_cons, Bool.or_eq_false_iff] at h
    simp [findIndex, h.1, findIndex_eq_none_of_any_eq_false h.2]

theorem findIndex_isSome_of_any {p : α → Bool} :
    ∀ {l : List α}, l.any p = true → (findIndex p l).isSome = true
  | a :: l, h => by
    simp only [List.any_cons, Bool.or_eq_true] at h
    by_cases ha : p a
    · simp [findIndex, ha]
    · simp [findIndex, ha, findIndex_isSome_of_any (h.resolve_left ha)]

/-! ### Helper lemmas about the daily rollup -/

theorem dailyUpdate_of_any_eq_false {d : Nat} {l : List DailyStat}
    (h : l.any (fun s => s.date == d) = false) :
    dailyUpdate d l = lastN 365 (l ++ [{ date := d, clicks := 1 }]) := by
  unfold dailyUpdate
  rw [findIndex_eq_none_of_any_eq_false h]

theorem dailyUpdate_eq_bumpToday {d : Nat} :
    ∀ {l : List DailyStat}, l.any (fun s => s.date == d) = true →
      dailyUpdate d l = bumpToday d l := by
  intro l
  induction l with
  | nil => intro h; simp at h
  | cons s rest ih =>
    intro h
    by_cases hs : s.date = d
    · simp [dailyUpdate, findIndex, hs, bumpToday, modifyIdx]
    · have hs' : (s.date == d) = false := by simp [hs]
      simp only [List.any_cons, hs', Bool.false_or] at h
      obtain ⟨j, hj⟩ := Option.isSome_iff_exists.mp (findIndex_isSome_of_any h)
      have hrest : dailyUpdate d rest =
          modifyIdx (fun s => { s with clicks := s.clicks + 1 }) j rest := by
        unfold dailyUpdate; rw [hj]
      have hfi : findIndex (fun t => t.date == d) (s :: rest) = some (j + 1) := by
        simp [findIndex, hs', hj]
      have hleft : dailyUpdate d (s :: rest) =
          s :: modifyIdx (fun t => { t with clicks := t.clicks + 1 }) j rest := by
        unfold dailyUpdate
        rw [hfi]
        simp [modifyIdx]
      rw [hleft, ← hrest, ih h]
      simp [bumpToday, hs]

theorem sumDaily_cons (s : DailyStat) (l : List DailyStat) :
    sumDaily (s :: l) = s.clicks + sumDaily l := by
  simp [sumDaily]

theorem statDates_bumpToday (d : Nat) :
    ∀ l : List DailyStat, statDates (bumpToday d l) = statDates l
  | [] => rfl
  | s :: rest => by
    by_cases hs : s.date = d
    · simp [bumpToday, hs, statDates]
    · simp only [bumpToday, if_neg hs, statDates, List.map_cons]
      have := statDates_bumpToday d rest
      simp only [statDates] at this
      rw [this]

theorem sumDaily_bumpToday {d : Nat} :
    ∀ {l : List DailyStat}, l.any (fun s => s.date == d) = true →
      sumDaily (bumpToday d l) = sumDaily l + 1 := by
  intro l
  induction l with
  | nil => intro h; simp at h
  | cons s rest ih =>
    intro h
    by_cases hs : s.date = d
    · simp only [bumpToday, if_pos hs, sumDaily_cons]
      omega
    · have hs' : (s.date == d) = false := by simp [hs]
      simp only [List.any_cons, hs', Bool.false_or] at h
      simp only [bumpToday, if_neg hs, sumDaily_cons, ih h]
      omega

/-! ### Helper lemmas about `generateShortCode` -/

theorem charAtMod_mem (b : Nat) : characters.contains (charAtMod b) = true := by
  have hlt : b % characters.length < characters.length := Nat.mod_lt _ (by decide)
  unfold charAtMod
  rw [List.getD_eq_getElem characters 'a' hlt]
  simp [List.getElem_mem hlt]

theorem isBase36_mem_characters {c : Char} (h : isBase36 c = true) :
    characters.contains c = true := by
  have hmem : c ∈ "0123456789abcdefghijklmnopqrstuvwxyz".toList := by
    simpa [isBase36] using h
  have hall : ∀ x ∈ "0123456789abcdefghijklmnopqrstuvwxyz".toList,
      characters.contains x = true := by decide
  exact hall c hmem

theorem genLoop_eq_some {taken : List Char → Bool} {attempts : List (List Nat)}
    {code : List Char} (h : genLoop taken attempts = some code) :
    ∃ bytes ∈ attempts, code = attemptCode bytes := by
  induction attempts with
  | nil => simp [genLoop] at h
  | cons bytes rest ih =>
    by_cases ht : taken (attemptCode bytes) = true
    · simp only [genLoop, ht, if_true] at h
      obtain ⟨b, hb, hc⟩ := ih h
      exact ⟨b, List.mem_cons_of_mem _ hb, hc⟩
    · simp only [genLoop, ht, if_false, Bool.not_eq_true] at h
      exact ⟨bytes, List.mem_cons_self _ _, (Option.some.inj h).symm⟩

/-! ### Helper lemmas about the referrer aggregation -/

theorem sum_map_bumpCount (acc : List (String × Nat)) (d : String) :
    ((bumpCount acc d).map Prod.snd).sum = (acc.map Prod.snd).sum + 1 := by
  induction acc with
  | nil => simp [bumpCount]
  | cons p rest ih =>
    obtain ⟨k, n⟩ := p
    by_cases hk : k = d
    · simp only [bumpCount, if_pos hk, List.map_cons, List.sum_cons]
      omega
    · simp only [bumpCount, if_neg hk, List.map_cons, List.sum_cons, ih]
      omega

theorem topReferrers_fold_ok (parseHost : String → Option String) :
    ∀ (l : List ClickEvent) (acc : List (String × Nat)),
      (∀ e ∈ l, refererPresent e = true) →
      (∀ e ∈ l, ∀ s, e.referer = some s → s.isEmpty = false →
        (parseHost s).isSome = true) →
      (l.foldlM (fun acc e =>
          match e.referer with
          | none => Except.error "TypeError"
          | some s =>
              match parseHost s with
              | none => Except.error "TypeError: Invalid URL"
              | some d => Except.ok (bumpCount acc d)) acc
        = Except.ok (l.foldl (fun acc e =>
            match e.referer.bind parseHost with
            | none => acc
            | some d => bumpCount acc d) acc)) ∧
      ((l.foldl (fun acc e =>
          match e.referer.bind parseHost with
          | none => acc
          | some d => bumpCount acc d) acc).map Prod.snd).sum
        = (acc.map Prod.snd).sum + l.length := by
  intro l
  induction l with
  | nil => exact fun acc _ _ => ⟨rfl, by simp⟩
  | cons e rest ih =>
    intro acc hpres hparse
    have hpe := hpres e (List.mem_cons_self _ _)
    cases hre : e.referer with
    | none =>
      unfold refererPresent at hpe
      rw [hre] at hpe
      simp at hpe
    | some s =>
      have hne : s.isEmpty = false := by
        unfold refererPresent at hpe
        rw [hre] at hpe
        simpa using hpe
      have hps := hparse e (List.mem_cons_self _ _) s hre hne
      obtain ⟨d, hd⟩ := Option.isSome_iff_exists.mp hps
      have hrest := ih (bumpCount acc d)
        (fun x hx => hpres x (List.mem_cons_of_mem _ hx))
        (fun x hx => hparse x (List.mem_cons_of_mem _ hx))
      constructor
      · rw [List.foldlM_cons, List.foldl_cons]
        simp only [hre, Option.some_bind, hd]
        exact hrest.1
      · rw [List.foldl_cons]
        simp only [hre, Option.some_bind, hd]
        rw [hrest.2, sum_map_bumpCount]
        simp only [List.length_cons]
        omega

/-! ### Projection lemmas for `incrementClicks` -/

theorem incrementClicks_clicks (r : UrlRecord) (now : Nat) (m : ClickMeta) :
    (incrementClicks r now m).clicks = r.clicks + 1 := rfl

theorem incrementClicks_recentClicks (r : UrlRecord) (now : Nat) (m : ClickMeta) :
    (incrementClicks r now m).recentClicks =
      lastN 1000 (r.recentClicks ++ [mkClickEvent now m]) := by
  simp only [incrementClicks]

theorem incrementClicks_dailyStats (r : UrlRecord) (now : Nat) (m : ClickMeta) :
    (incrementClicks r now m).dailyStats = dailyUpdate (dayTrunc now) r.dailyStats := by
  simp only [incrementClicks]

/-! ### Helper lemmas about click sequences -/

theorem applyClicks_cons (r : UrlRecord) (c : Nat × ClickMeta)
    (cs : List (Nat × ClickMeta)) :
    applyClicks r (c :: cs) = applyClicks (incrementClicks r c.1 c.2) cs := rfl

theorem dailyUpdate_length_le {stats : List DailyStat} (h : stats.length ≤ 365)
    (d : Nat) : (dailyUpdate d stats).length ≤ 365 := by
  unfold dailyUpdate
  split
  · rw [modifyIdx_length]; exact h
  · exact lastN_length_le _ _

theorem applyClicks_dailyStats_length :
    ∀ (cs : List (Nat × ClickMeta)) (r : UrlRecord), r.dailyStats.length ≤ 365 →
      (applyClicks r cs).dailyStats.length ≤ 365
  | [], _, h => h
  | c :: cs, r, h =>
    applyClicks_dailyStats_length cs _ (by
      rw [incrementClicks_dailyStats]
      exact dailyUpdate_length_le h _)

theorem applyClicks_recentClicks :
    ∀ (cs : List (Nat × ClickMeta)) (r : UrlRecord),
      r.recentClicks.length ≤ 1000 →
      (applyClicks r cs).recentClicks =
        lastN 1000 (r.recentClicks ++ cs.map (fun c => mkClickEvent c.1 c.2))
  | [], r, h => by
    simp only [applyClicks, List.foldl_nil, List.map_nil, List.append_nil]
    exact (lastN_of_length_le h).symm
  | c :: cs, r, h => by
    rw [applyClicks_cons]
    have hlen : (incrementClicks r c.1 c.2).recentClicks.length ≤ 1000 := by
      rw [incrementClicks_recentClicks]
      exact lastN_length_le _ _
    rw [applyClicks_recentClicks cs _ hlen, incrementClicks_recentClicks,
      lastN_lastN_append, List.append_assoc]
    simp

/-! ### Helper lemmas for the clickCount/dailyStats invariant -/

theorem any_date_eq_false_iff {d : Nat} {l : List DailyStat} :
    (l.any fun s => s.date == d) = false ↔ d ∉ statDates l := by
  rw [← Bool.not_eq_true, List.any_eq_true]
  simp only [statDates, List.mem_map, beq_iff_eq]

theorem length_le_dedup_of_nodup_subset {l m : List Nat} (hn : l.Nodup)
    (hs : ∀ a ∈ l, a ∈ m) : l.length ≤ m.dedup.length := by
  have hsub : l ⊆ m.dedup := fun a ha => List.mem_dedup.mpr (hs a ha)
  exact (List.subperm_of_subset hn hsub).length_le

theorem applyClicks_sum_inv (D : List Nat) (hD : D.dedup.length ≤ 365) :
    ∀ (cs : List (Nat × ClickMeta)) (r : UrlRecord),
      r.clicks = sumDaily r.dailyStats →
      (statDates r.dailyStats).Nodup →
      (∀ d ∈ statDates r.dailyStats, d ∈ D) →
      (∀ c ∈ cs, dayTrunc c.1 ∈ D) →
      (applyClicks r cs).clicks = sumDaily (applyClicks r cs).dailyStats ∧
      (statDates (applyClicks r cs).dailyStats).Nodup ∧
      (∀ d ∈ statDates (applyClicks r cs).dailyStats, d ∈ D) := by
  intro cs
  induction cs with
  | nil => exact fun r h1 h2 h3 _ => ⟨h1, h2, h3⟩
  | cons c cs ih =>
    intro r h1 h2 h3 hcs
    rw [applyClicks_cons]
    have hdD : dayTrunc c.1 ∈ D := hcs c (List.mem_cons_self _ _)
    have hcs' : ∀ x ∈ cs, dayTrunc x.1 ∈ D :=
      fun x hx => hcs x (List.mem_cons_of_mem _ hx)
    have hds := incrementClicks_dailyStats r c.1 c.2
    have hck := incrementClicks_clicks r c.1 c.2
    by_cases hany : (r.dailyStats.any fun s => s.date == dayTrunc c.1) = true
    · have hbump : (incrementClicks r c.1 c.2).dailyStats =
          bumpToday (dayTrunc c.1) r.dailyStats := by
        rw [hds]; exact dailyUpdate_eq_bumpToday hany
      apply ih
      · rw [hck, hbump, sumDaily_bumpToday hany, h1]
      · rw [hbump, statDates_bumpToday]; exact h2
      · rw [hbump, statDates_bumpToday]; exact h3
      · exact hcs'
    · have hany' : (r.dailyStats.any fun s => s.date == dayTrunc c.1) = false := by
        simpa using hany
      have hdnot : dayTrunc c.1 ∉ statDates r.dailyStats :=
        any_date_eq_false_iff.mp hany'
      have hlen : r.dailyStats.length ≤ 364 := by
        have hcons : (dayTrunc c.1 :: statDates r.dailyStats).Nodup :=
          List.nodup_cons.mpr ⟨hdnot, h2⟩
        have hsub : ∀ a ∈ dayTrunc c.1 :: statDates r.dailyStats, a ∈ D := by
          intro a ha
          rcases List.mem_cons.mp ha with h | h
          · subst h; exact hdD
          · exact h3 a h
        have hle := le_trans (length_le_dedup_of_nodup_subset hcons hsub) hD
        simp only [List.length_cons, statDates, List.length_map] at hle
        omega
      have happ : (incrementClicks r c.1 c.2).dailyStats =
          r.dailyStats ++ [{ date := dayTrunc c.1, clicks := 1 }] := by
        rw [hds, dailyUpdate_of_any_eq_false hany', lastN_of_length_le]
        simp only [List.length_append, List.length_cons, List.length_nil]
        omega
      apply ih
      · rw [hck, happ, h1]
        simp [sumDaily]
      · rw [happ]
        simp only [statDates, List.map_append, List.map_cons, List.map_nil]
        rw [List.nodup_append]
        refine ⟨h2, List.nodup_singleton _, ?_⟩
        intro a ha hb
        simp only [List.mem_singleton] at hb
        subst hb
        exact hdnot (by simpa [statDates] using ha)
      · intro x hx
        rw [happ] at hx
        simp only [statDates, List.map_append, List.map_cons, List.map_nil,
          List.mem_append, List.mem_singleton] at hx
        rcases hx with h | h
        · exact h3 x (by simpa [statDates] using h)
        · subst h; exact hdD
      · exact hcs'

/-! ### Claim theorems -/

/-- C1: every click recorded through `incrementClicks` on an existing
record is one update that increments `clicks` by exactly 1, sets
`lastClicked` to the current time, appends one click event (timestamp, ip,
userAgent, referer) to `recentClicks` truncated to the most-recent 1000
entries, and for today's date truncated to day granularity either
increments the existing `dailyStats` entry for that day by 1 in place or
appends a new `{date: today, clicks: 1}` entry truncated to the
most-recent 365 entries. -/
theorem claim_C1_incrementClicks_effect (r : UrlRecord) (now : Nat) (m : ClickMeta) :
    (incrementClicks r now m).clicks = r.clicks + 1 ∧
    (incrementClicks r now m).lastClicked = some now ∧
    (incrementClicks r now m).recentClicks =
      lastN 1000 (r.recentClicks ++ [mkClickEvent now m]) ∧
    ((r.dailyStats.any fun s => s.date == dayTrunc now) = true →
      (incrementClicks r now m).dailyStats = bumpToday (dayTrunc now) r.dailyStats) ∧
    ((r.dailyStats.any fun s => s.date == dayTrunc now) = false →
      (incrementClicks r now m).dailyStats =
        lastN 365 (r.dailyStats ++ [{ date := dayTrunc now, clicks := 1 }])) := by
  refine ⟨rfl, rfl, ?_, ?_, ?_⟩
  · simp only [incrementClicks]
  · intro h
    exact dailyUpdate_eq_bumpToday h
  · intro h
    exact dailyUpdate_of_any_eq_false h

/-- Witness for C1: one click at time 100 on a fresh record (no
`dailyStats` entry for that day yet). -/
theorem claim_C1_witness :
    (incrementClicks w1Rec 100 w1Meta).clicks = w1Rec.clicks + 1 ∧
    (incrementClicks w1Rec 100 w1Meta).dailyStats =
      lastN 365 (w1Rec.dailyStats ++ [{ date := dayTrunc 100, clicks := 1 }]) :=
  ⟨(claim_C1_incrementClicks_effect w1Rec 100 w1Meta).1,
   (claim_C1_incrementClicks_effect w1Rec 100 w1Meta).2.2.2.2 (by decide)⟩

/-- C9: after every `incrementClicks`, `lastClicked` equals the timestamp
of the most recent entry of `recentClicks`: both are set from the same
captured current time inside the single update. -/
theorem claim_C9_lastClicked_matches_last_event (r : UrlRecord) (now : Nat)
    (m : ClickMeta) :
    (incrementClicks r now m).lastClicked = some now ∧
    (incrementClicks r now m).recentClicks.getLast? = some (mkClickEvent now m) ∧
    ((incrementClicks r now m).recentClicks.getLast?).map ClickEvent.timestamp =
      (incrementClicks r now m).lastClicked := by
  have hrc : (incrementClicks r now m).recentClicks =
      lastN 1000 (r.recentClicks ++ [mkClickEvent now m]) := by
    simp only [incrementClicks]
  have h : (incrementClicks r now m).recentClicks.getLast? =
      some (mkClickEvent now m) := by
    rw [hrc]
    exact getLast?_lastN_concat 1000 (by omega) r.recentClicks (mkClickEvent now m)
  exact ⟨rfl, h, by rw [h]; rfl⟩

/-- C10: `incrementClicks` modifies only `clicks`, `lastClicked`,
`recentClicks`, `dailyStats` (and the store-managed `updatedAt`): for
every record and click, `originalUrl`, `shortCode`, `userId`, `title`,
`description`, `isActive`, `expiryDate`, `qrCode` and `tags` are
unchanged. -/
theorem claim_C10_incrementClicks_frame (r : UrlRecord) (now : Nat) (m : ClickMeta) :
    (incrementClicks r now m).originalUrl = r.originalUrl ∧
    (incrementClicks r now m).shortCode = r.shortCode ∧
    (incrementClicks r now m).userId = r.userId ∧
    (incrementClicks r now m).title = r.title ∧
    (incrementClicks r now m).description = r.description ∧
    (incrementClicks r now m).isActive = r.isActive ∧
    (incrementClicks r now m).expiryDate = r.expiryDate ∧
    (incrementClicks r now m).qrCode = r.qrCode ∧
    (incrementClicks r now m).tags = r.tags :=
  ⟨rfl, rfl, rfl, rfl, rfl, rfl, rfl, rfl, rfl⟩

/-- C3: whenever the atomic insert fails with a `shortCode` uniqueness
violation, `createShortUrl` generates one new code and retries the insert
exactly once (two insert attempts in total); the retry's success returns
the created record with the new code, and any failure of the retry yields
the 500 collision response with no further attempts and the store
unchanged. -/
theorem claim_C3_shortCode_collision_single_retry (store : List UrlRecord)
    (data : UrlRecord) (newCode : String)
    (h : insertRecord store data = .error .shortCode) :
    (createRecord store data newCode).2.2 = 2 ∧
    createRecord store data newCode =
      (match insertRecord store { data with shortCode := newCode } with
       | .ok store1 => (.created { data with shortCode := newCode }, store1, 2)
       | .error _ => (.collisionRetryFailed, store, 2)) := by
  have hcr : createRecord store data newCode =
      (match insertRecord store { data with shortCode := newCode } with
       | .ok store1 => (.created { data with shortCode := newCode }, store1, 2)
       | .error _ => (.collisionRetryFailed, store, 2)) := by
    unfold createRecord
    rw [h]
  refine ⟨?_, hcr⟩
  rw [hcr]
  cases insertRecord store { data with shortCode := newCode } <;> rfl

/-- Witness for C3: `w1Rec`'s code `abc123` is already taken by
`wCodeClash`; the retry with the fresh code `def456` succeeds. -/
theorem claim_C3_witness :
    (createRecord [wCodeClash] w1Rec "def456").2.2 = 2 ∧
    createRecord [wCodeClash] w1Rec "def456" =
      (match insertRecord [wCodeClash] { w1Rec with shortCode := "def456" } with
       | .ok store1 => (.created { w1Rec with shortCode := "def456" }, store1, 2)
       | .error _ => (.collisionRetryFailed, [wCodeClash], 2)) :=
  claim_C3_shortCode_collision_single_retry [wCodeClash] w1Rec "def456" rfl

/-- C4: whenever the atomic insert fails with an `(ownerId, originalUrl)`
uniqueness violation, the operation reports no error: it looks up the
pre-existing active record for that owner+URL pair and returns it (one
insert attempt, store unchanged), and the returned record matches the
request's owner and URL and is active. -/
theorem claim_C4_owner_url_duplicate_returns_existing (store : List UrlRecord)
    (data : UrlRecord) (newCode : String) (hact : data.isActive = true)
    (h : insertRecord store data = .error .ownerUrl) :
    createRecord store data newCode =
      (.existingReturned ((store.find? (fun s =>
          s.userId == data.userId && s.originalUrl == data.originalUrl &&
          s.isActive)).getD data), store, 1) ∧
    ((store.find? (fun s =>
        s.userId == data.userId && s.originalUrl == data.originalUrl &&
        s.isActive)).getD data) ∈ store ∧
    ((store.find? (fun s =>
        s.userId == data.userId && s.originalUrl == data.originalUrl &&
        s.isActive)).getD data).userId = data.userId ∧
    ((store.find? (fun s =>
        s.userId == data.userId && s.originalUrl == data.originalUrl &&
        s.isActive)).getD data).originalUrl = data.originalUrl ∧
    ((store.find? (fun s =>
        s.userId == data.userId && s.originalUrl == data.originalUrl &&
        s.isActive)).getD data).isActive = true := by
  have hany : store.any (fun s =>
      s.userId == data.userId && s.originalUrl == data.originalUrl &&
      s.isActive) = true := by
    have h' := h
    unfold insertRecord at h'
    split at h'
    · simp at h'
    · split at h'
      · rename_i h2
        have : ∀ s : UrlRecord, (s.isActive == data.isActive) = s.isActive := by
          intro s; rw [hact]; cases s.isActive <;> rfl
        simpa [this] using h2
      · simp at h'
  obtain ⟨ex, hmem, hex⟩ := List.any_eq_true.mp hany
  have hfind : (store.find? (fun s =>
      s.userId == data.userId && s.originalUrl == data.originalUrl &&
      s.isActive)).isSome := List.find?_isSome.mpr ⟨ex, hmem, hex⟩
  obtain ⟨fx, hfx⟩ := Option.isSome_iff_exists.mp hfind
  have hfp := List.find?_some hfx
  have hfmem := List.mem_of_find?_eq_some hfx
  simp only [Bool.and_eq_true, beq_iff_eq] at hfp
  have hcr : createRecord store data newCode = (.existingReturned fx, store, 1) := by
    unfold createRecord
    rw [h, hfx]
  rw [hfx]
  exact ⟨hcr, hfmem, hfp.1.1, hfp.1.2, hfp.2⟩

/-- Witness for C4: owner 1 already holds `https://example.com` as
`wOwnerClash`; creating `w1Rec` returns that existing record. -/
theorem claim_C4_witness :
    createRecord [wOwnerClash] w1Rec "def456" =
      (.existingReturned (([wOwnerClash].find? (fun s =>
          s.userId == w1Rec.userId && s.originalUrl == w1Rec.originalUrl &&
          s.isActive)).getD w1Rec), [wOwnerClash], 1) ∧
    (([wOwnerClash].find? (fun s =>
        s.userId == w1Rec.userId && s.originalUrl == w1Rec.originalUrl &&
        s.isActive)).getD w1Rec) ∈ [wOwnerClash] ∧
    (([wOwnerClash].find? (fun s =>
        s.userId == w1Rec.userId && s.originalUrl == w1Rec.originalUrl &&
        s.isActive)).getD w1Rec).userId = w1Rec.userId ∧
    (([wOwnerClash].find? (fun s =>
        s.userId == w1Rec.userId && s.originalUrl == w1Rec.originalUrl &&
        s.isActive)).getD w1Rec).originalUrl = w1Rec.originalUrl ∧
    (([wOwnerClash].find? (fun s =>
        s.userId == w1Rec.userId && s.originalUrl == w1Rec.originalUrl &&
        s.isActive)).getD w1Rec).isActive = true :=
  claim_C4_owner_url_duplicate_returns_existing [wOwnerClash] w1Rec "def456"
    rfl rfl

/-- C8: for every redirect request whose short code resolves to an
active, unexpired record, any failure of the click-recording step is
caught at the boundary and the 302 redirect to `originalUrl` is still
issued: the response is `redirect302 url.originalUrl` for every possible
`recordClick` behaviour, including one that always throws. -/
theorem claim_C8_redirect_despite_click_failure (store : List UrlRecord)
    (code : String) (now : Nat) (recordClick : UrlRecord → Except String UrlRecord)
    (url : UrlRecord)
    (hfind : store.find? (fun r => r.shortCode == code && r.isActive) = some url)
    (hexp : (match url.expiryDate with
             | some d => decide (d < now)
             | none => false) = false) :
    (redirectToOriginal store code now recordClick).1 =
      .redirect302 url.originalUrl := by
  unfold redirectToOriginal
  rw [hfind]
  simp only [hexp, if_false, Bool.false_eq_true]

/-- Witness for C8: the store holds the active, never-expiring `w1Rec`
and click recording always fails, yet the response is the 302 redirect. -/
theorem claim_C8_witness :
    (redirectToOriginal [w1Rec] "abc123" 0 alwaysFailClick).1 =
      .redirect302 "https://example.com" :=
  claim_C8_redirect_despite_click_failure [w1Rec] "abc123" 0 alwaysFailClick
    w1Rec (by decide) (by decide)

/-- Counterexample to C2 as stated: a legitimate `generateShortCode(4)`
run (every random draw has 4 bytes) in which all 50 attempts collide
returns the fallback code, an 8-character string — not a string of
exactly `length = 4` characters. -/
theorem claim_C2_counterexample :
    attempts4.all (fun b => b.length == 4) = true ∧
    generateShortCode takenLen4 attempts4 wTsDigits wRandDigits 4 =
      .ok "m0abc123".toList ∧
    ("m0abc123".toList).length ≠ 4 :=
  ⟨by decide, rfl, by decide⟩

/-- C2 amended: every string returned on the random-attempt path has
exactly `length` characters, each from the 64-character alphabet; a
string returned on the fallback path also consists only of alphabet
characters (base-36 digits), but its length is
`min (max length 8) (tsDigits.length + randDigits.length)` — at most
`max(length, 8)`, not exactly `length`. -/
theorem claim_C2_generated_code_shape (taken : List Char → Bool)
    (attempts : List (List Nat)) (tsDigits randDigits : List Char)
    (length : Nat) (code : List Char)
    (hbytes : attempts.all (fun b => b.length == length) = true)
    (hts : tsDigits.all isBase36 = true)
    (hrand : randDigits.all isBase36 = true)
    (hok : generateShortCode taken attempts tsDigits randDigits length = .ok code) :
    code.all (fun c => characters.contains c) = true ∧
    (code.length = length ∨
      code.length = min (max length 8) (tsDigits.length + randDigits.length)) := by
  unfold generateShortCode at hok
  cases hg : genLoop taken attempts with
  | some c =>
    rw [hg] at hok
    have hc : c = code := by simpa using hok
    subst hc
    obtain ⟨bytes, hbmem, hbc⟩ := genLoop_eq_some hg
    constructor
    · rw [List.all_eq_true]
      intro x hx
      rw [hbc] at hx
      obtain ⟨b, _, hbx⟩ := List.mem_map.mp hx
      rw [← hbx]
      exact charAtMod_mem b
    · left
      have hlen := List.all_eq_true.mp hbytes bytes hbmem
      rw [hbc]
      simp only [attemptCode, List.length_map]
      simpa using hlen
  | none =>
    rw [hg] at hok
    by_cases ht : taken (fallbackCode tsDigits randDigits length) = true
    · simp [ht] at hok
    · simp only [ht, if_false, Bool.not_eq_true] at hok
      have hc : fallbackCode tsDigits randDigits length = code := by
        simpa using hok
      rw [← hc]
      constructor
      · rw [List.all_eq_true]
        intro x hx
        have hx' : x ∈ tsDigits ++ randDigits :=
          List.take_subset _ _ hx
        rcases List.mem_append.mp hx' with h1 | h2
        · exact isBase36_mem_characters (List.all_eq_true.mp hts x h1)
        · exact isBase36_mem_characters (List.all_eq_true.mp hrand x h2)
      · right
        simp [fallbackCode, List.length_take, List.length_append]

/-- Witness for the amended C2: a run with one non-colliding 4-byte draw
returns the 4-character code `abcd` over the alphabet. -/
theorem claim_C2_witness :
    (attemptCode [0, 1, 2, 3]).all (fun c => characters.contains c) = true ∧
    ((attemptCode [0, 1, 2, 3]).length = 4 ∨
      (attemptCode [0, 1, 2, 3]).length =
        min (max 4 8) (wTsDigits.length + wRandDigits.length)) :=
  claim_C2_generated_code_shape takenNone [[0, 1, 2, 3]] wTsDigits wRandDigits 4
    (attemptCode [0, 1, 2, 3]) (by decide) (by decide) (by decide) rfl

/-- Counterexample to C7 as stated: a record exists (`wBadRefRec`) whose
single recent click carries a non-empty referer that does not parse as a
URL, and `getUrlAnalytics` fails with the 500 server error instead of
succeeding with that entry silently excluded. -/
theorem claim_C7_counterexample :
    getUrlAnalytics noParse (some wBadRefRec) = .serverError := rfl

/-- C7 amended: for every existing record all of whose present, non-empty
referers parse as URLs, `getUrlAnalytics` succeeds and returns the
referrer-hostname counts derived only from the `recentClicks` entries
with a non-empty referer (each such entry contributing exactly one
count); entries with a missing or empty referer are excluded. When some
non-empty referer fails to parse, the operation instead fails with a
server error (see the counterexample). -/
theorem claim_C7_topReferrers_parse_contract (parseHost : String → Option String)
    (url : UrlRecord)
    (hparse : ∀ e ∈ url.recentClicks, ∀ s, e.referer = some s →
      s.isEmpty = false → (parseHost s).isSome = true) :
    getUrlAnalytics parseHost (some url) =
      .ok (topReferrersTotal parseHost url.recentClicks) ∧
    ((topReferrersTotal parseHost url.recentClicks).map Prod.snd).sum =
      (url.recentClicks.filter refererPresent).length := by
  have hpres : ∀ e ∈ url.recentClicks.filter refererPresent,
      refererPresent e = true := fun e he => (List.mem_filter.mp he).2
  have hparse' : ∀ e ∈ url.recentClicks.filter refererPresent, ∀ s,
      e.referer = some s → s.isEmpty = false → (parseHost s).isSome = true :=
    fun e he => hparse e (List.mem_filter.mp he).1
  have hmain := topReferrers_fold_ok parseHost
    (url.recentClicks.filter refererPresent) [] hpres hparse'
  constructor
  · simp only [getUrlAnalytics, topReferrers]
    rw [hmain.1]
    simp only [topReferrersTotal]
  · have h2 := hmain.2
    simp only [List.map_nil, List.sum_nil, Nat.zero_add] at h2
    simpa [topReferrersTotal] using h2

/-- Witness for the amended C7: under a URL parser that accepts every
string, the record with one well-formed referer yields a successful
analytics response whose referrer counts total the one matching entry. -/
theorem claim_C7_witness :
    getUrlAnalytics allParse (some wGoodRefRec) =
      .ok (topReferrersTotal allParse wGoodRefRec.recentClicks) ∧
    ((topReferrersTotal allParse wGoodRefRec.recentClicks).map Prod.snd).sum =
      (wGoodRefRec.recentClicks.filter refererPresent).length :=
  claim_C7_topReferrers_parse_contract allParse wGoodRefRec
    (fun _ _ _ _ _ => rfl)

/-- C6: starting from a freshly created record, after any sequence of
clicks `recentClicks` has length at most 1000 and `dailyStats` has length
at most 365; `recentClicks` is exactly the sliding window of the 1000
most recent click events in order (oldest evicted first), so after 1500
clicks its length is exactly 1000. -/
theorem claim_C6_bounded_sliding_windows (base : UrlRecord)
    (cs : List (Nat × ClickMeta)) (hrc : base.recentClicks = [])
    (hds : base.dailyStats = []) :
    (applyClicks base cs).recentClicks =
      lastN 1000 (cs.map (fun c => mkClickEvent c.1 c.2)) ∧
    (applyClicks base cs).recentClicks.length ≤ 1000 ∧
    (applyClicks base cs).dailyStats.length ≤ 365 ∧
    (cs.length = 1500 → (applyClicks base cs).recentClicks.length = 1000) := by
  have h1 : (applyClicks base cs).recentClicks =
      lastN 1000 (cs.map (fun c => mkClickEvent c.1 c.2)) := by
    rw [applyClicks_recentClicks cs base (by rw [hrc]; simp), hrc]
    simp
  refine ⟨h1, ?_, ?_, ?_⟩
  · rw [h1]
    exact lastN_length_le _ _
  · exact applyClicks_dailyStats_length cs base (by rw [hds]; simp)
  · intro h1500
    rw [h1, lastN_length, List.length_map, h1500]

/-- Witness for C6: 1500 clicks on the fresh record `w1Rec` leave exactly
the last 1000 events in `recentClicks`. -/
theorem claim_C6_witness :
    (applyClicks w1Rec w1500Clicks).recentClicks =
      lastN 1000 (w1500Clicks.map (fun c => mkClickEvent c.1 c.2)) ∧
    (applyClicks w1Rec w1500Clicks).recentClicks.length ≤ 1000 ∧
    (applyClicks w1Rec w1500Clicks).dailyStats.length ≤ 365 ∧
    (applyClicks w1Rec w1500Clicks).recentClicks.length = 1000 :=
  have h := claim_C6_bounded_sliding_windows w1Rec w1500Clicks rfl rfl
  ⟨h.1, h.2.1, h.2.2.1, h.2.2.2 (by unfold w1500Clicks; rw [List.length_replicate])⟩

/-- C5: after any sequence of clicks on a freshly created record touching
at most 365 distinct days (so no `dailyStats` entry has been evicted),
`clicks` equals the sum of the `clicks` fields of all `dailyStats`
entries. -/
theorem claim_C5_clickCount_matches_dailyStats (base : UrlRecord)
    (cs : List (Nat × ClickMeta)) (h0 : base.clicks = 0)
    (h1 : base.dailyStats = [])
    (hdays : ((cs.map fun c => dayTrunc c.1).dedup).length ≤ 365) :
    (applyClicks base cs).clicks = sumDaily (applyClicks base cs).dailyStats := by
  have hinv := applyClicks_sum_inv _ hdays cs
  refine (hinv base ?_ ?_ ?_ ?_).1
  · rw [h0, h1]; rfl
  · rw [h1]; exact List.nodup_nil
  · rw [h1]; intro d hd; simp [statDates] at hd
  · exact fun c hc => List.mem_map_of_mem _ hc

/-- Witness for C5: one click at time 5 on the fresh record `w1Rec`
(one distinct day) leaves `clicks` equal to the `dailyStats` total. -/
theorem claim_C5_witness :
    (applyClicks w1Rec [(5, w1Meta)]).clicks =
      sumDaily (applyClicks w1Rec [(5, w1Meta)]).dailyStats :=
  claim_C5_clickCount_matches_dailyStats w1Rec [(5, w1Meta)] rfl rfl (by decide)

end ShortUrl
